import Mathlib

/-!
Shallow embedding of src/gerador_dados.py (edu_tech data-population pipeline).

Conventions of the embedding:
* Machine dates are modelled as integers (day numbers); Python Decimal values
  are modelled as rationals.
* The pseudo-random stream is modelled by explicit draw parameters: a call of
  Python randint(lo, hi) with a raw draw d yields the value
  lo + (d - lo) % (hi - lo + 1), which ranges over exactly [lo, hi] and raises
  (Except.error) precisely when hi < lo, mirroring random.randrange.
  random.choice over a list is modelled by indexing with the draw modulo the
  length, raising on the empty list. random.random() and random.uniform draws
  are carried as rational parameters.
* Database inserts are modelled by returning the list of inserted rows.
-/

namespace EduTech

/-- Enrollment status enum (status_matricula_enum in the DDL). -/
inductive Status where
  | ativa
  | concluida
  | cancelada
deriving DecidableEq, Repr

/-- Value returned by Python random.randint(lo, hi) when lo ≤ hi, from a raw
draw d: always lies in [lo, hi]. -/
def randintVal (lo hi d : ℤ) : ℤ :=
  lo + (d - lo) % (hi - lo + 1)

/-- Python random.randint(lo, hi): raises ValueError (Except.error) when the
range is empty (hi < lo), otherwise returns a value in [lo, hi]. -/
def randint (lo hi d : ℤ) : Except String ℤ :=
  if hi < lo then Except.error "empty range for randrange"
  else Except.ok (randintVal lo hi d)

/-- Python random.choice(seq): raises IndexError on an empty sequence,
otherwise returns the element selected by the raw draw. -/
def choice (l : List ℤ) (d : ℕ) : Except String ℤ :=
  if l.isEmpty then Except.error "Cannot choose from an empty sequence"
  else Except.ok (l.getD (d % l.length) 0)

/-- Round-half-to-even on rationals (banker's rounding), the default rounding
of Python's decimal context used by Decimal.quantize without an explicit
rounding argument. -/
def roundHalfEven (x : ℚ) : ℤ :=
  if x - ⌊x⌋ < 1/2 then ⌊x⌋
  else if 1/2 < x - ⌊x⌋ then ⌊x⌋ + 1
  else if Even ⌊x⌋ then ⌊x⌋ else ⌊x⌋ + 1

/-- Decimal.quantize(Decimal("0.01")) with the context default rounding
(ROUND_HALF_EVEN): round to two decimal places. -/
def quantize2 (x : ℚ) : ℚ :=
  (roundHalfEven (100 * x) : ℚ) / 100

/-- Raw random draws consumed by one iteration of the criar_matriculas loop. -/
structure MatDraw where
  alunoIdx : ℕ
  cursoIdx : ℕ
  dataOffset : ℤ
  r : ℚ
  conclOffset : ℤ
  desconto : ℚ
deriving Repr

/-- Row of edutech.matriculas as inserted by criar_matriculas. -/
structure Matricula where
  aluno : ℤ
  curso : ℤ
  dataMatricula : ℤ
  dataConclusao : Option ℤ
  status : Status
  valorPago : ℚ
deriving DecidableEq, Repr

/-- Body of one accepted iteration of criar_matriculas: enrollment date within
the past 240 days, status drawn by cumulative thresholds 0.45/0.80 on r,
completion date only for status concluida, paid value from the stored course
price and the quantized discount. -/
def mkMatricula (precos : ℤ → ℚ) (hoje : ℤ) (a c : ℤ) (d : MatDraw) : Matricula :=
  let dataM := hoje - randintVal 0 240 d.dataOffset
  let sc : Status × Option ℤ :=
    if d.r < 45/100 then (Status.concluida, some (dataM + randintVal 7 120 d.conclOffset))
    else if d.r < 80/100 then (Status.ativa, none)
    else (Status.cancelada, none)
  let desc := quantize2 d.desconto
  { aluno := a
    curso := c
    dataMatricula := dataM
    dataConclusao := sc.2
    status := sc.1
    valorPago := quantize2 (precos c * (1 - desc)) }

/-- Rejection-sampling loop of criar_matriculas: while fewer than qtd
enrollments are created and attempt fuel remains, draw a (student, course)
pair, skip it when already chosen, otherwise insert a new enrollment. -/
def criarMatriculasLoop (precos : ℤ → ℚ) (hoje : ℤ) (alunos cursos : List ℤ)
    (draws : ℕ → MatDraw) (qtd : ℕ) :
    ℕ → ℕ → List (ℤ × ℤ) → List Matricula → Except String (List Matricula)
  | 0, _, _, acc => Except.ok acc.reverse
  | fuel + 1, i, pares, acc =>
    if qtd ≤ acc.length then Except.ok acc.reverse
    else
      Except.bind (choice alunos (draws i).alunoIdx) fun a =>
        Except.bind (choice cursos (draws i).cursoIdx) fun c =>
          if (a, c) ∈ pares then
            criarMatriculasLoop precos hoje alunos cursos draws qtd fuel (i + 1) pares acc
          else
            criarMatriculasLoop precos hoje alunos cursos draws qtd fuel (i + 1)
              ((a, c) :: pares) (mkMatricula precos hoje a c (draws i) :: acc)

/-- criar_matriculas: creates up to qtd unique (student, course) enrollments
within an attempt budget of qtd * 6 draws. -/
def criarMatriculas (precos : ℤ → ℚ) (hoje : ℤ) (alunos cursos : List ℤ)
    (qtd : ℕ) (draws : ℕ → MatDraw) : Except String (List Matricula) :=
  criarMatriculasLoop precos hoje alunos cursos draws qtd (qtd * 6) 0 [] []

/-- Fixed curated pool of category (name, description) pairs used by
criar_categorias. -/
def baseCategorias : List (String × String) :=
  [("Programação", "Linguagens e paradigmas"),
   ("Dados", "SQL, modelagem, análise"),
   ("DevOps", "Infra, CI/CD, cloud"),
   ("Frontend", "UI/UX e frameworks"),
   ("Backend", "APIs e arquitetura"),
   ("Carreira", "Soft skills e práticas"),
   ("Segurança", "AppSec e boas práticas"),
   ("Mobile", "iOS/Android e cross-platform")]

/-- criar_categorias: shuffles the fixed pool (the shuffled list is passed in
as a permutation of baseCategorias) and inserts the first max(n, 5) entries;
the returned list stands for the inserted rows (one id each). -/
def criarCategorias (n : ℤ) (shuffled : List (String × String)) :
    List (String × String) :=
  shuffled.take (max n 5).toNat

/-- Lesson type enum (aula_tipo_enum in the DDL). -/
inductive AulaTipo where
  | video
  | texto
  | quiz
deriving DecidableEq, Repr

/-- random.choice over the three lesson types. -/
def escolherTipo (d : ℕ) : AulaTipo :=
  [AulaTipo.video, AulaTipo.texto, AulaTipo.quiz].getD (d % 3) AulaTipo.video

/-- Row of edutech.aulas as inserted by criar_modulos_e_aulas (fields relevant
to the embedding). -/
structure Aula where
  ordem : ℤ
  duracao : ℤ
  tipo : AulaTipo
deriving DecidableEq, Repr

/-- Row of edutech.modulos together with the lessons inserted under it. -/
structure Modulo where
  ordem : ℤ
  aulas : List Aula
deriving DecidableEq, Repr

/-- Raw draws consumed for one course by criar_modulos_e_aulas. -/
structure CursoDraws where
  qMod : ℤ
  qAulas : ℕ → ℤ
  durD : ℕ → ℕ → ℤ
  tipoD : ℕ → ℕ → ℕ

/-- Inner lesson loop of criar_modulos_e_aulas: for ordem_a in 1..q, a lesson
with duration randint(5, 45) and a random type. -/
def mkAulas (q : ℕ) (durD : ℕ → ℤ) (tipoD : ℕ → ℕ) : List Aula :=
  (List.range q).map fun j =>
    { ordem := Int.ofNat j + 1
      duracao := randintVal 5 45 (durD j)
      tipo := escolherTipo (tipoD j) }

/-- Module loop of criar_modulos_e_aulas for one course: q_mod =
randint(min_mod, max_mod) modules with ordem 1.., each with q_aulas =
randint(min_aula, max_aula) lessons. -/
def criarModulosCursoAux (minAula maxAula : ℤ) (cd : CursoDraws) :
    ℕ → ℕ → Except String (List Modulo)
  | 0, _ => Except.ok []
  | q + 1, k =>
    Except.bind (randint minAula maxAula (cd.qAulas k)) fun qa =>
      Except.bind (criarModulosCursoAux minAula maxAula cd q (k + 1)) fun rest =>
        Except.ok ({ ordem := Int.ofNat k + 1
                     aulas := mkAulas qa.toNat (cd.durD k) (cd.tipoD k) } :: rest)

/-- Module loop of criar_modulos_e_aulas for one course (entry point): draw
q_mod, then build that many modules. -/
def criarModulosCurso (minMod maxMod minAula maxAula : ℤ) (cd : CursoDraws) :
    Except String (List Modulo) :=
  Except.bind (randint minMod maxMod cd.qMod) fun qm =>
    criarModulosCursoAux minAula maxAula cd qm.toNat 0

/-- criar_modulos_e_aulas over the list of course ids; per course returns the
created modules (each carrying its lessons). -/
def criarModulosEAulas (minMod maxMod minAula maxAula : ℤ) (cds : ℕ → CursoDraws) :
    List ℤ → ℕ → Except String (List (ℤ × List Modulo))
  | [], _ => Except.ok []
  | cId :: rest, i =>
    Except.bind (criarModulosCurso minMod maxMod minAula maxAula (cds i)) fun mods =>
      Except.bind (criarModulosEAulas minMod maxMod minAula maxAula cds rest (i + 1)) fun rest2 =>
        Except.ok ((cId, mods) :: rest2)

/-- Row of edutech.progresso_aulas as inserted by criar_progresso. -/
structure ProgRow where
  matricula : ℤ
  aula : ℤ
  concluida : Bool
  dataConclusao : Option ℤ
  tempo : ℤ
deriving DecidableEq, Repr

/-- Raw draws consumed for one enrollment by criar_progresso. -/
structure ProgDraws where
  kD : ℤ
  sampleD : ℕ → ℕ
  tD : ℕ → ℤ
  offD : ℕ → ℤ

/-- Selection step of random.sample: repeatedly pick a remaining element (by
draw modulo the remaining length) and remove it, k times — sampling without
replacement. -/
def samplePick (ds : ℕ → ℕ) : ℕ → ℕ → List (ℤ × ℤ) → List (ℤ × ℤ)
  | _, 0, _ => []
  | _, _ + 1, [] => []
  | j, k + 1, x :: xs =>
    let idx := ds j % (x :: xs).length
    (x :: xs).getD idx x :: samplePick ds (j + 1) k ((x :: xs).eraseIdx idx)

/-- Python random.sample(population, k): raises when k exceeds the population
size, otherwise returns k elements chosen without replacement. -/
def sample (l : List (ℤ × ℤ)) (k : ℕ) (ds : ℕ → ℕ) :
    Except String (List (ℤ × ℤ)) :=
  if l.length < k then Except.error "Sample larger than population or is negative"
  else Except.ok (samplePick ds 0 k l)

/-- Per-sampled-lesson body of criar_progresso: watched time randint(0, dur),
completed iff the full duration was watched and the enrollment is not
cancelled, completion date only when completed. -/
def mkProgRows (mId dataM : ℤ) (st : Status) (tD offD : ℕ → ℤ) :
    ℕ → List (ℤ × ℤ) → Except String (List ProgRow)
  | _, [] => Except.ok []
  | j, (aulaId, dur) :: rest =>
    Except.bind (randint 0 dur (tD j)) fun t =>
      let concl : Bool := decide (t = dur ∧ st ≠ Status.cancelada)
      Except.bind
        (if concl then
          Except.bind (randint 1 90 (offD j)) fun off => Except.ok (some (dataM + off))
        else Except.ok none) fun dataC =>
        Except.bind (mkProgRows mId dataM st tD offD (j + 1) rest) fun rest2 =>
          Except.ok ({ matricula := mId
                       aula := aulaId
                       concluida := concl
                       dataConclusao := dataC
                       tempo := t } :: rest2)

/-- One enrollment of the criar_progresso loop: look up course, enrollment
date and status, skip when the course has no lessons, otherwise sample
k = randint(3, min(10, available)) lessons and create one row each. -/
def progressoFor (info : ℤ → ℤ × ℤ × Status) (apc : ℤ → List (ℤ × ℤ))
    (m : ℤ) (pd : ProgDraws) : Except String (List ProgRow) :=
  let aulas := apc (info m).1
  if aulas.isEmpty then Except.ok []
  else
    Except.bind (randint 3 (min 10 (aulas.length : ℤ)) pd.kD) fun k =>
      Except.bind (sample aulas k.toNat pd.sampleD) fun spl =>
        mkProgRows m (info m).2.1 (info m).2.2 pd.tD pd.offD 0 spl

/-- criar_progresso over the enrollment ids created in this run; info is the
map built from the SELECT over edutech.matriculas (id to (curso_id,
data_matricula, status)), apc the course-to-lessons map from the curriculum
stage. -/
def criarProgressoLoop (info : ℤ → ℤ × ℤ × Status) (apc : ℤ → List (ℤ × ℤ))
    (pds : ℕ → ProgDraws) : List ℤ → ℕ → Except String (List ProgRow)
  | [], _ => Except.ok []
  | m :: rest, i =>
    Except.bind (progressoFor info apc m (pds i)) fun rs =>
      Except.bind (criarProgressoLoop info apc pds rest (i + 1)) fun rest2 =>
        Except.ok (rs ++ rest2)

/-- criar_progresso entry point. -/
def criarProgresso (info : ℤ → ℤ × ℤ × Status) (apc : ℤ → List (ℤ × ℤ))
    (matIds : List ℤ) (pds : ℕ → ProgDraws) : Except String (List ProgRow) :=
  criarProgressoLoop info apc pds matIds 0

/-- Row of edutech.matriculas as seen by the SELECT in criar_avaliacoes. -/
structure MatRow where
  id : ℤ
  curso : ℤ
  dataConclusao : Option ℤ
  status : Status
deriving DecidableEq, Repr

/-- Row of edutech.avaliacoes as inserted by criar_avaliacoes. -/
structure Avaliacao where
  matricula : ℤ
  curso : ℤ
  nota : ℤ
  dataAvaliacao : ℤ
deriving DecidableEq, Repr

/-- Loop of criar_avaliacoes over the completed enrollments: one insert
attempt per row, with ON CONFLICT (matricula_id) DO NOTHING suppressing any
id that already has an evaluation (pre-existing or inserted earlier in this
very loop); returns the rows actually inserted. -/
def criarAvaliacoesLoop (hoje : ℤ) (notaD offD : ℕ → ℤ) :
    List MatRow → ℕ → List ℤ → List Avaliacao
  | [], _, _ => []
  | row :: rest, i, existing =>
    let nota := randintVal 1 5 (notaD i)
    let dataAv := row.dataConclusao.getD hoje + randintVal 0 60 (offD i)
    if row.id ∈ existing then
      criarAvaliacoesLoop hoje notaD offD rest (i + 1) existing
    else
      { matricula := row.id
        curso := row.curso
        nota := nota
        dataAvaliacao := dataAv } :: criarAvaliacoesLoop hoje notaD offD rest (i + 1)
          (row.id :: existing)

/-- criar_avaliacoes: selects every row of edutech.matriculas whose status is
concluida (the whole table, not only ids created in this run) and attempts
one evaluation insert per selected row; returns the inserted rows paired with
the count of rows actually inserted (the sum of the per-insert rowcounts).
existing holds the matricula ids that already have an evaluation at call
time. -/
def criarAvaliacoes (table : List MatRow) (existing : List ℤ) (hoje : ℤ)
    (notaD offD : ℕ → ℤ) : List Avaliacao × ℕ :=
  let inserted := criarAvaliacoesLoop hoje notaD offD
    (table.filter fun r => decide (r.status = Status.concluida)) 0 existing
  (inserted, inserted.length)

/-- Connection state of the popular orchestrator: the durably committed
database state and the pending state of the open transaction. -/
structure Conn (σ : Type) where
  committed : σ
  pending : σ
deriving DecidableEq, Repr

/-- Observable transaction events of one popular run. -/
inductive Evento where
  | reset
  | stage (n : ℕ)
  | commit
  | rollback
deriving DecidableEq, Repr

/-- Runs the generation stages in order on the pending transaction state,
recording one stage event per completed stage and stopping at the first
exception. -/
def runStages {σ ε : Type} : List (σ → Except ε σ) → ℕ → σ →
    Except ε (σ × List Evento)
  | [], _, s => Except.ok (s, [])
  | f :: fs, n, s =>
    Except.bind (f s) fun s2 =>
      Except.bind (runStages fs (n + 1) s2) fun r =>
        Except.ok (r.1, Evento.stage n :: r.2)

/-- Optional reset step of popular, run first inside the open transaction. -/
def preRun {σ ε : Type} (resetFlag : Bool) (resetOp : σ → Except ε σ) (s : σ) :
    Except ε (σ × List Evento) :=
  if resetFlag then
    Except.bind (resetOp s) fun s2 => Except.ok (s2, [Evento.reset])
  else Except.ok (s, [])

/-- End of the popular transaction: on success commit once (the commit is the
final event) and persist the pending state; on any exception roll the
transaction back (pending state discarded, committed state untouched) and
re-raise the exception. -/
def finishRun {σ ε : Type} (c : Conn σ) :
    Except ε (σ × List Evento) → Except ε σ × Conn σ × List Evento
  | Except.error e =>
    (Except.error e, { c with pending := c.committed }, [Evento.rollback])
  | Except.ok (s2, evs) =>
    (Except.ok s2, { committed := s2, pending := s2 }, evs ++ [Evento.commit])

/-- popular: inside one open transaction, optionally reset, then run the
stages in order; commit once at the very end on success, or roll back the
whole transaction and re-raise the exception on any failure. Returns the
propagated result, the final connection state and the event trace. -/
def popular {σ ε : Type} (resetFlag : Bool) (resetOp : σ → Except ε σ)
    (stages : List (σ → Except ε σ)) (c : Conn σ) :
    Except ε σ × Conn σ × List Evento :=
  finishRun c
    (Except.bind (preRun resetFlag resetOp c.pending) fun r =>
      Except.bind (runStages stages 1 r.1) fun r2 =>
        Except.ok (r2.1, r.2 ++ r2.2))

/-! Concrete instances used to evaluate the generators on explicit inputs. -/

/-- Price table whose single price 49.93 is a valid two-decimal course price
inside [49.90, 499.90]. -/
def cexPrecos : ℤ → ℚ := fun _ => 4993/100

/-- Draw stream whose raw uniform(0, 0.2) discount draw 0.199 quantizes to the
discount 0.20. -/
def cexDraws : ℕ → MatDraw := fun _ =>
  { alunoIdx := 0, cursoIdx := 0, dataOffset := 0, r := 1/2, conclOffset := 0,
    desconto := 199/1000 }

/-- All-zero enrollment draw stream for witnesses. -/
def drawsZero : ℕ → MatDraw := fun _ =>
  { alunoIdx := 0, cursoIdx := 0, dataOffset := 0, r := 1/2, conclOffset := 0,
    desconto := 0 }

/-- Enrollment draw stream with r = 0.3 (status concluida). -/
def drawsConcl : ℕ → MatDraw := fun _ =>
  { alunoIdx := 0, cursoIdx := 0, dataOffset := 0, r := 3/10, conclOffset := 0,
    desconto := 1/10 }

/-- All-zero per-course curriculum draw bundle. -/
def cdZero : CursoDraws :=
  { qMod := 0, qAulas := fun _ => 0, durD := fun _ _ => 0, tipoD := fun _ _ => 0 }

/-- Stream of all-zero curriculum draw bundles. -/
def cdsZero : ℕ → CursoDraws := fun _ => cdZero

/-- All-zero per-enrollment progress draw bundle. -/
def pdZero : ProgDraws :=
  { kD := 0, sampleD := fun _ => 0, tD := fun _ => 0, offD := fun _ => 0 }

/-- Stream of all-zero progress draw bundles. -/
def pdsZero : ℕ → ProgDraws := fun _ => pdZero

/-- Enrollment-info table sending every id to course 7, date 0, status ativa. -/
def infoUm : ℤ → ℤ × ℤ × Status := fun _ => (7, 0, Status.ativa)

/-- Course-to-lessons map with exactly one lesson per course. -/
def apcUma : ℤ → List (ℤ × ℤ) := fun _ => [(1, 10)]

/-- Course-to-lessons map with exactly three lessons per course. -/
def apcTres : ℤ → List (ℤ × ℤ) := fun _ => [(1, 10), (2, 20), (3, 30)]

/-- Course-to-lessons map with no lessons at all. -/
def apcVazia : ℤ → List (ℤ × ℤ) := fun _ => []

/-- All-zero integer draw stream. -/
def zeroD : ℕ → ℤ := fun _ => 0

/-- Completed enrollment row with completion date 100. -/
def rowConcluida : MatRow :=
  { id := 1, curso := 2, dataConclusao := some 100, status := Status.concluida }

/-- Second completed enrollment row, standing for a row persisted by an
earlier run. -/
def rowAntiga : MatRow :=
  { id := 3, curso := 4, dataConclusao := none, status := Status.concluida }

/-- Active enrollment row (never selected by criar_avaliacoes). -/
def rowAtiva : MatRow :=
  { id := 5, curso := 6, dataConclusao := none, status := Status.ativa }

/-- Orchestrator stage that succeeds, bumping a counter state. -/
def stOk : ℕ → Except String ℕ := fun s => Except.ok (s + 1)

/-- Orchestrator stage that raises (a constraint violation). -/
def stErr : ℕ → Except String ℕ := fun _ => Except.error "constraint violation"

/-- Reset operation clearing the counter state. -/
def resetZero : ℕ → Except String ℕ := fun _ => Except.ok 0

/-! Helper lemmas about the random primitives and the decimal rounding. -/

theorem randintVal_bounds (lo hi d : ℤ) (h : lo ≤ hi) :
    lo ≤ randintVal lo hi d ∧ randintVal lo hi d ≤ hi := by
  unfold randintVal
  have hpos : 0 < hi - lo + 1 := by omega
  have h1 : 0 ≤ (d - lo) % (hi - lo + 1) := Int.emod_nonneg _ (by omega)
  have h2 : (d - lo) % (hi - lo + 1) < hi - lo + 1 := Int.emod_lt_of_pos _ hpos
  omega

theorem randint_ok_iff (lo hi d : ℤ) :
    (∃ v, randint lo hi d = Except.ok v) ↔ lo ≤ hi := by
  unfold randint
  split_ifs with h
  · constructor
    · rintro ⟨v, hv⟩
      cases hv
    · intro hle
      omega
  · constructor
    · intro _
      omega
    · intro _
      exact ⟨_, rfl⟩

theorem randint_ok_bounds {lo hi d v : ℤ} (h : randint lo hi d = Except.ok v) :
    lo ≤ v ∧ v ≤ hi := by
  unfold randint at h
  split_ifs at h with hc
  all_goals
    first
      | exact Except.noConfusion h
      | (rw [Except.ok.injEq] at h
         subst h
         exact randintVal_bounds lo hi d (by omega))

theorem randint_error_of_lt (lo hi d : ℤ) (h : hi < lo) :
    randint lo hi d = Except.error "empty range for randrange" := by
  unfold randint
  rw [if_pos h]

theorem roundHalfEven_bounds (x : ℚ) :
    x - 1/2 ≤ (roundHalfEven x : ℚ) ∧ (roundHalfEven x : ℚ) ≤ x + 1/2 := by
  have h1 : (⌊x⌋ : ℚ) ≤ x := Int.floor_le x
  have h2 : x < ⌊x⌋ + 1 := Int.lt_floor_add_one x
  unfold roundHalfEven
  split_ifs with ha hb hc <;> constructor <;> push_cast <;> linarith

theorem quantize2_bounds (x : ℚ) :
    x - 1/200 ≤ quantize2 x ∧ quantize2 x ≤ x + 1/200 := by
  have h := roundHalfEven_bounds (100 * x)
  unfold quantize2
  constructor <;> [linarith [h.1]; linarith [h.2]]

theorem quantize2_den (x : ℚ) : ∃ k : ℤ, quantize2 x = (k : ℚ) / 100 :=
  ⟨roundHalfEven (100 * x), rfl⟩

/-- Quantizing a raw uniform(0, 0.2) draw gives a discount in the closed
interval [0, 0.20]. -/
theorem quantize2_desconto {u : ℚ} (h0 : 0 ≤ u) (h1 : u ≤ 1/5) :
    0 ≤ quantize2 u ∧ quantize2 u ≤ 1/5 := by
  have hb := roundHalfEven_bounds (100 * u)
  have hknn : (0 : ℤ) ≤ roundHalfEven (100 * u) := by
    have hgt : (-1 : ℚ) < (roundHalfEven (100 * u) : ℚ) := by linarith [hb.1]
    have : (-1 : ℤ) < roundHalfEven (100 * u) := by exact_mod_cast hgt
    omega
  have hkub : roundHalfEven (100 * u) ≤ 20 := by
    have hlt : (roundHalfEven (100 * u) : ℚ) < 21 := by linarith [hb.2]
    have : roundHalfEven (100 * u) < (21 : ℤ) := by exact_mod_cast hlt
    omega
  unfold quantize2
  constructor
  · have : (0 : ℚ) ≤ (roundHalfEven (100 * u) : ℚ) := by exact_mod_cast hknn
    linarith
  · have : (roundHalfEven (100 * u) : ℚ) ≤ 20 := by exact_mod_cast hkub
    linarith

/-- Bounds on the quantized paid value: for a two-decimal nonnegative price
and a discount in [0, 0.20], the paid value lies within [0.80 * price -
0.005, price]. -/
theorem quantize2_valor_bounds {price dsc : ℚ} {p : ℤ} (hp : price = (p : ℚ) / 100)
    (hpos : 0 ≤ price) (h0 : 0 ≤ dsc) (h1 : dsc ≤ 1/5) :
    (80/100) * price - 1/200 ≤ quantize2 (price * (1 - dsc)) ∧
      quantize2 (price * (1 - dsc)) ≤ price := by
  have hq := quantize2_bounds (price * (1 - dsc))
  have hyl : (80/100) * price ≤ price * (1 - dsc) := by nlinarith
  have hyu : price * (1 - dsc) ≤ price := by nlinarith
  constructor
  · linarith [hq.1]
  · have hb := roundHalfEven_bounds (100 * (price * (1 - dsc)))
    have hkp : roundHalfEven (100 * (price * (1 - dsc))) ≤ p := by
      have hlt : (roundHalfEven (100 * (price * (1 - dsc))) : ℚ) < (p : ℚ) + 1 := by
        have : 100 * (price * (1 - dsc)) ≤ (p : ℚ) := by
          rw [hp] at hyu ⊢
          linarith
        linarith [hb.2]
      have : roundHalfEven (100 * (price * (1 - dsc))) < p + 1 := by exact_mod_cast hlt
      omega
    have hc2 : (roundHalfEven (100 * (price * (1 - dsc))) : ℚ) ≤ (p : ℚ) := by
      exact_mod_cast hkp
    unfold quantize2
    linarith [hc2]

/-! Structural lemmas about criar_matriculas. -/

theorem mkMatricula_aluno (precos : ℤ → ℚ) (hoje a c : ℤ) (d : MatDraw) :
    (mkMatricula precos hoje a c d).aluno = a := rfl

theorem mkMatricula_curso (precos : ℤ → ℚ) (hoje a c : ℤ) (d : MatDraw) :
    (mkMatricula precos hoje a c d).curso = c := rfl

theorem mkMatricula_valorPago (precos : ℤ → ℚ) (hoje a c : ℤ) (d : MatDraw) :
    (mkMatricula precos hoje a c d).valorPago =
      quantize2 (precos c * (1 - quantize2 d.desconto)) := rfl

theorem mkMatricula_dataMatricula (precos : ℤ → ℚ) (hoje a c : ℤ) (d : MatDraw) :
    (mkMatricula precos hoje a c d).dataMatricula =
      hoje - randintVal 0 240 d.dataOffset := rfl

theorem mkMatricula_status_eq (precos : ℤ → ℚ) (hoje a c : ℤ) (d : MatDraw) :
    (mkMatricula precos hoje a c d).status =
      (if d.r < 45/100 then Status.concluida
       else if d.r < 80/100 then Status.ativa
       else Status.cancelada) := by
  unfold mkMatricula
  split_ifs with h1 h2 <;> rfl

theorem mkMatricula_dataConclusao_eq (precos : ℤ → ℚ) (hoje a c : ℤ) (d : MatDraw) :
    (mkMatricula precos hoje a c d).dataConclusao =
      (if d.r < 45/100 then
        some ((mkMatricula precos hoje a c d).dataMatricula + randintVal 7 120 d.conclOffset)
       else none) := by
  unfold mkMatricula
  split_ifs with h1 h2 <;> rfl

theorem exceptBind_ok {ε α β : Type} (a : α) (f : α → Except ε β) :
    Except.bind (Except.ok a) f = f a := rfl

theorem exceptBind_error {ε α β : Type} (e : ε) (f : α → Except ε β) :
    Except.bind (Except.error e) f = Except.error e := rfl

theorem exceptBind_eq_ok {ε α β : Type} {x : Except ε α} {f : α → Except ε β} {b : β}
    (h : Except.bind x f = Except.ok b) : ∃ a, x = Except.ok a ∧ f a = Except.ok b := by
  cases x with
  | error e => exact Except.noConfusion h
  | ok a => exact ⟨a, rfl, h⟩

theorem choice_cons_ok (x : ℤ) (xs : List ℤ) (d : ℕ) :
    choice (x :: xs) d = Except.ok ((x :: xs).getD (d % (x :: xs).length) 0) := by
  unfold choice
  rfl

theorem choice_ok_of_ne_nil {l : List ℤ} (d : ℕ) (h : l ≠ []) :
    choice l d = Except.ok (l.getD (d % l.length) 0) := by
  cases l with
  | nil => exact absurd rfl h
  | cons x xs => exact choice_cons_ok x xs d

/-- Invariant of the rejection-sampling loop of criar_matriculas: with
nonempty pools the loop always returns normally, the accumulated (student,
course) pairs stay pairwise distinct, and the accumulator never exceeds qtd
rows. -/
theorem criarMatriculasLoop_ok_spec (precos : ℤ → ℚ) (hoje : ℤ)
    (alunos cursos : List ℤ) (draws : ℕ → MatDraw) (qtd : ℕ)
    (ha : alunos ≠ []) (hc : cursos ≠ []) :
    ∀ fuel i pares acc,
      (acc.map fun m => (m.aluno, m.curso)).Nodup →
      (∀ p ∈ acc.map fun m => (m.aluno, m.curso), p ∈ pares) →
      acc.length ≤ qtd →
      ∃ ms, criarMatriculasLoop precos hoje alunos cursos draws qtd fuel i pares acc =
          Except.ok ms ∧
        (ms.map fun m => (m.aluno, m.curso)).Nodup ∧ ms.length ≤ qtd := by
  intro fuel
  induction fuel with
  | zero =>
    intro i pares acc hnd hsub hlen
    refine ⟨acc.reverse, rfl, ?_, ?_⟩
    · rw [List.map_reverse, List.nodup_reverse]
      exact hnd
    · simpa using hlen
  | succ fuel ih =>
    intro i pares acc hnd hsub hlen
    rw [criarMatriculasLoop]
    split_ifs with hstop
    · refine ⟨acc.reverse, rfl, ?_, ?_⟩
      · rw [List.map_reverse, List.nodup_reverse]
        exact hnd
      · simpa using hlen
    · rw [choice_ok_of_ne_nil _ ha, choice_ok_of_ne_nil _ hc]
      simp only [exceptBind_ok]
      set a := alunos.getD ((draws i).alunoIdx % alunos.length) 0 with hadef
      set c := cursos.getD ((draws i).cursoIdx % cursos.length) 0 with hcdef
      by_cases hmem : (a, c) ∈ pares
      · rw [if_pos hmem]
        exact ih (i + 1) pares acc hnd hsub hlen
      · rw [if_neg hmem]
        refine ih (i + 1) ((a, c) :: pares) (mkMatricula precos hoje a c (draws i) :: acc)
          ?_ ?_ ?_
        · rw [List.map_cons, mkMatricula_aluno, mkMatricula_curso, List.nodup_cons]
          exact ⟨fun hin => hmem (hsub _ hin), hnd⟩
        · intro p hp
          rw [List.map_cons, mkMatricula_aluno, mkMatricula_curso] at hp
          rcases List.mem_cons.mp hp with h | h
          · exact List.mem_cons.mpr (Or.inl h)
          · exact List.mem_cons.mpr (Or.inr (hsub _ h))
        · simpa using Nat.lt_of_not_le hstop

/-- Every row returned by the criar_matriculas loop is either from the
accumulator or built by mkMatricula from some draw of the stream. -/
theorem criarMatriculasLoop_mem (precos : ℤ → ℚ) (hoje : ℤ)
    (alunos cursos : List ℤ) (draws : ℕ → MatDraw) (qtd : ℕ) :
    ∀ fuel i pares acc ms,
      criarMatriculasLoop precos hoje alunos cursos draws qtd fuel i pares acc =
        Except.ok ms →
      ∀ m ∈ ms, m ∈ acc ∨ ∃ j a c, m = mkMatricula precos hoje a c (draws j) := by
  intro fuel
  induction fuel with
  | zero =>
    intro i pares acc ms h m hm
    rw [criarMatriculasLoop] at h
    cases h
    exact Or.inl (List.mem_reverse.mp hm)
  | succ fuel ih =>
    intro i pares acc ms h m hm
    rw [criarMatriculasLoop] at h
    split_ifs at h with hstop
    · cases h
      exact Or.inl (List.mem_reverse.mp hm)
    · rcases exceptBind_eq_ok h with ⟨a, hca, h⟩
      rcases exceptBind_eq_ok h with ⟨c, hcc, h⟩
      by_cases hmem : (a, c) ∈ pares
      · rw [if_pos hmem] at h
        exact ih (i + 1) pares acc ms h m hm
      · rw [if_neg hmem] at h
        rcases ih (i + 1) ((a, c) :: pares)
            (mkMatricula precos hoje a c (draws i) :: acc) ms h m hm with hacc | hnew
        · rcases List.mem_cons.mp hacc with h1 | h1
          · exact Or.inr ⟨i, a, c, h1⟩
          · exact Or.inl h1
        · exact Or.inr hnew

/-- The criar_matriculas loop consults only the draws inside its fuel window:
with fuel f starting at index i, draws beyond [i, i + f) are irrelevant. -/
theorem criarMatriculasLoop_congr (precos : ℤ → ℚ) (hoje : ℤ)
    (alunos cursos : List ℤ) (qtd : ℕ) (draws draws2 : ℕ → MatDraw) :
    ∀ fuel i pares acc,
      (∀ j, i ≤ j → j < i + fuel → draws2 j = draws j) →
      criarMatriculasLoop precos hoje alunos cursos draws2 qtd fuel i pares acc =
        criarMatriculasLoop precos hoje alunos cursos draws qtd fuel i pares acc := by
  intro fuel
  induction fuel with
  | zero => intro i pares acc hagree; rfl
  | succ fuel ih =>
    intro i pares acc hagree
    rw [criarMatriculasLoop, criarMatriculasLoop]
    have hi : draws2 i = draws i := hagree i le_rfl (by omega)
    rw [hi]
    split_ifs with hstop
    · rfl
    · cases hca : choice alunos (draws i).alunoIdx with
      | error e => rfl
      | ok a =>
        cases hcc : choice cursos (draws i).cursoIdx with
        | error e => rfl
        | ok c =>
          have hrec : ∀ pares2 acc2,
              criarMatriculasLoop precos hoje alunos cursos draws2 qtd fuel (i + 1) pares2 acc2 =
              criarMatriculasLoop precos hoje alunos cursos draws qtd fuel (i + 1) pares2 acc2 :=
            fun pares2 acc2 => ih (i + 1) pares2 acc2 (fun j h1 h2 => hagree j (by omega) (by omega))
          simp only [exceptBind_ok]
          by_cases hmem : (a, c) ∈ pares
          · simp only [if_pos hmem]
            exact hrec pares acc
          · simp only [if_neg hmem]
            exact hrec _ _

/-! Structural lemmas about criar_modulos_e_aulas. -/

theorem mkAulas_length (q : ℕ) (durD : ℕ → ℤ) (tipoD : ℕ → ℕ) :
    (mkAulas q durD tipoD).length = q := by
  simp [mkAulas]

theorem mkAulas_ordem (q : ℕ) (durD : ℕ → ℤ) (tipoD : ℕ → ℕ) :
    (mkAulas q durD tipoD).map Aula.ordem =
      (List.range q).map fun j => Int.ofNat j + 1 := by
  rw [mkAulas, List.map_map]
  rfl

theorem criarModulosCursoAux_spec (minAula maxAula : ℤ) (cd : CursoDraws) :
    ∀ q k mods,
      criarModulosCursoAux minAula maxAula cd q k = Except.ok mods →
      mods.length = q ∧
      (mods.map Modulo.ordem = (List.range q).map fun j => Int.ofNat (k + j) + 1) ∧
      ∀ md ∈ mods, ∃ qa dD tD, md.aulas = mkAulas qa dD tD := by
  intro q
  induction q with
  | zero =>
    intro k mods h
    cases h
    exact ⟨rfl, rfl, fun md hmd => absurd hmd (List.not_mem_nil md)⟩
  | succ q ih =>
    intro k mods h
    rw [criarModulosCursoAux] at h
    rcases exceptBind_eq_ok h with ⟨qa, hqa, h⟩
    rcases exceptBind_eq_ok h with ⟨rest, hrest, h⟩
    cases h
    obtain ⟨hlen, hord, haulas⟩ := ih (k + 1) rest hrest
    refine ⟨by simp [hlen], ?_, ?_⟩
    · rw [List.map_cons, hord, List.range_succ_eq_map, List.map_cons, List.map_map]
      congr 1
      all_goals
        first
          | (norm_num
             done)
          | (apply List.map_congr_left
             intro j hj
             show Int.ofNat (k + 1 + j) + 1 = Int.ofNat (k + (j + 1)) + 1
             have hkj : k + 1 + j = k + (j + 1) := by omega
             rw [hkj])
    · intro md hmd
      rcases List.mem_cons.mp hmd with h1 | h1
      · exact ⟨qa.toNat, cd.durD k, cd.tipoD k, by rw [h1]⟩
      · exact haulas md h1

theorem criarModulosCurso_spec (minMod maxMod minAula maxAula : ℤ) (cd : CursoDraws)
    (mods : List Modulo)
    (h : criarModulosCurso minMod maxMod minAula maxAula cd = Except.ok mods) :
    (mods.map Modulo.ordem = (List.range mods.length).map fun j => Int.ofNat j + 1) ∧
    ∀ md ∈ mods, ∃ qa dD tD, md.aulas = mkAulas qa dD tD := by
  rw [criarModulosCurso] at h
  rcases exceptBind_eq_ok h with ⟨qm, hqm, h⟩
  obtain ⟨hlen, hord, haulas⟩ := criarModulosCursoAux_spec minAula maxAula cd qm.toNat 0 mods h
  refine ⟨?_, haulas⟩
  rw [hord, hlen]
  apply List.map_congr_left
  intro j hj
  rw [Nat.zero_add]

theorem criarModulosEAulas_mem (minMod maxMod minAula maxAula : ℤ) (cds : ℕ → CursoDraws) :
    ∀ cursoIds i res,
      criarModulosEAulas minMod maxMod minAula maxAula cds cursoIds i = Except.ok res →
      ∀ e ∈ res, ∃ j,
        criarModulosCurso minMod maxMod minAula maxAula (cds j) = Except.ok e.2 := by
  intro cursoIds
  induction cursoIds with
  | nil =>
    intro i res h e he
    cases h
    exact absurd he (List.not_mem_nil e)
  | cons cId rest ih =>
    intro i res h e he
    rw [criarModulosEAulas] at h
    rcases exceptBind_eq_ok h with ⟨mods, hmods, h⟩
    rcases exceptBind_eq_ok h with ⟨rest2, hrest2, h⟩
    cases h
    rcases List.mem_cons.mp he with h1 | h1
    · subst h1
      exact ⟨i, hmods⟩
    · exact ih (i + 1) rest2 hrest2 e h1

/-! Structural lemmas about criar_progresso. -/

theorem samplePick_mem (ds : ℕ → ℕ) :
    ∀ k j l, ∀ x ∈ samplePick ds j k l, x ∈ l := by
  intro k
  induction k with
  | zero =>
    intro j l x hx
    simp [samplePick] at hx
  | succ k ih =>
    intro j l x hx
    cases l with
    | nil => simp [samplePick] at hx
    | cons y ys =>
      simp only [samplePick] at hx
      rcases List.mem_cons.mp hx with h1 | h1
      · have hidx : ds j % (y :: ys).length < (y :: ys).length := Nat.mod_lt _ (by simp)
        rw [h1, List.getD_eq_getElem _ _ hidx]
        exact List.getElem_mem hidx
      · exact (List.eraseIdx_sublist (y :: ys) _).subset (ih (j + 1) _ x h1)

theorem samplePick_length (ds : ℕ → ℕ) :
    ∀ k j l, k ≤ l.length → (samplePick ds j k l).length = k := by
  intro k
  induction k with
  | zero =>
    intro j l h
    rfl
  | succ k ih =>
    intro j l h
    cases l with
    | nil => simp at h
    | cons y ys =>
      have hidx : ds j % (y :: ys).length < (y :: ys).length := Nat.mod_lt _ (by simp)
      have hlen : (List.eraseIdx (y :: ys) (ds j % (y :: ys).length)).length = ys.length := by
        rw [List.length_eraseIdx_of_lt hidx]
        simp
      have hle : k ≤ (List.eraseIdx (y :: ys) (ds j % (y :: ys).length)).length := by
        rw [hlen]
        simp only [List.length_cons] at h
        omega
      show ((y :: ys).getD (ds j % (y :: ys).length) y ::
        samplePick ds (j + 1) k ((y :: ys).eraseIdx (ds j % (y :: ys).length))).length = k + 1
      rw [List.length_cons, ih (j + 1) _ hle]

theorem sample_ok_spec {l : List (ℤ × ℤ)} {k : ℕ} {ds : ℕ → ℕ} {spl : List (ℤ × ℤ)}
    (h : sample l k ds = Except.ok spl) :
    spl.length = k ∧ ∀ x ∈ spl, x ∈ l := by
  rw [sample] at h
  split_ifs at h with hlt
  all_goals
    first
      | exact Except.noConfusion h
      | (rw [Except.ok.injEq] at h
         subst h
         exact ⟨samplePick_length ds k 0 l (by omega),
           fun x hx => samplePick_mem ds k 0 l x hx⟩)

theorem sample_ok_of_le {l : List (ℤ × ℤ)} {k : ℕ} (ds : ℕ → ℕ) (h : k ≤ l.length) :
    sample l k ds = Except.ok (samplePick ds 0 k l) := by
  rw [sample, if_neg (by omega)]

theorem mkProgRows_ok_spec (mId dataM : ℤ) (st : Status) (tD offD : ℕ → ℤ) :
    ∀ spl j rows, mkProgRows mId dataM st tD offD j spl = Except.ok rows →
      rows.length = spl.length ∧
      ∀ r ∈ rows, r.matricula = mId ∧ ∃ dur, (r.aula, dur) ∈ spl ∧
        0 ≤ r.tempo ∧ r.tempo ≤ dur ∧
        (r.concluida = true ↔ (r.tempo = dur ∧ st ≠ Status.cancelada)) ∧
        (r.dataConclusao ≠ none ↔ r.concluida = true) ∧
        (∀ x, r.dataConclusao = some x → ∃ off, 1 ≤ off ∧ off ≤ 90 ∧ x = dataM + off) := by
  intro spl
  induction spl with
  | nil =>
    intro j rows h
    cases h
    exact ⟨rfl, fun r hr => absurd hr (List.not_mem_nil r)⟩
  | cons p rest ih =>
    intro j rows h
    obtain ⟨aulaId, dur⟩ := p
    rw [mkProgRows] at h
    rcases exceptBind_eq_ok h with ⟨t, ht, h⟩
    rcases exceptBind_eq_ok h with ⟨dataC, hdc, h⟩
    rcases exceptBind_eq_ok h with ⟨rest2, hrest, h⟩
    cases h
    obtain ⟨ht0, htd⟩ := randint_ok_bounds ht
    obtain ⟨hlen, hall⟩ := ih (j + 1) rest2 hrest
    have hdata : (dataC = none ∧ decide (t = dur ∧ st ≠ Status.cancelada) = false) ∨
        (∃ off, 1 ≤ off ∧ off ≤ 90 ∧ dataC = some (dataM + off) ∧
          decide (t = dur ∧ st ≠ Status.cancelada) = true) := by
      by_cases hcl : t = dur ∧ st ≠ Status.cancelada
      · right
        rw [if_pos (by simpa using hcl)] at hdc
        rcases exceptBind_eq_ok hdc with ⟨off, hoff, heq⟩
        obtain ⟨ho1, ho2⟩ := randint_ok_bounds hoff
        rw [Except.ok.injEq] at heq
        exact ⟨off, ho1, ho2, heq.symm, by simpa using hcl⟩
      · left
        rw [if_neg (by simpa using hcl)] at hdc
        rw [Except.ok.injEq] at hdc
        exact ⟨hdc.symm, by simpa using hcl⟩
    constructor
    · simp [hlen]
    · intro r hr
      rcases List.mem_cons.mp hr with h1 | h1
      · subst h1
        refine ⟨rfl, dur, List.mem_cons_self _ _, ht0, htd, ?_, ?_, ?_⟩
        · show decide (t = dur ∧ st ≠ Status.cancelada) = true ↔
            (t = dur ∧ st ≠ Status.cancelada)
          simp
        · show dataC ≠ none ↔ decide (t = dur ∧ st ≠ Status.cancelada) = true
          rcases hdata with ⟨hn, hd⟩ | ⟨off, _, _, hs, hd⟩
          · rw [hn, hd]
            simp
          · rw [hs, hd]
            simp
        · intro x hx
          have hx2 : dataC = some x := hx
          rcases hdata with ⟨hn, _⟩ | ⟨off, h1o, h2o, hs, _⟩
          · rw [hn] at hx2
            exact Option.noConfusion hx2
          · rw [hs, Option.some.injEq] at hx2
            exact ⟨off, h1o, h2o, hx2.symm⟩
      · obtain ⟨hm, dur2, hmem, h1a, h2a, h3a, h4a, h5a⟩ := hall r h1
        exact ⟨hm, dur2, List.mem_cons_of_mem _ hmem, h1a, h2a, h3a, h4a, h5a⟩

theorem mkProgRows_ok_of_nonneg (mId dataM : ℤ) (st : Status) (tD offD : ℕ → ℤ) :
    ∀ spl j, (∀ p ∈ spl, 0 ≤ p.2) →
      ∃ rows, mkProgRows mId dataM st tD offD j spl = Except.ok rows ∧
        rows.length = spl.length := by
  intro spl
  induction spl with
  | nil =>
    intro j _
    exact ⟨[], rfl, rfl⟩
  | cons p rest ih =>
    intro j h
    obtain ⟨aulaId, dur⟩ := p
    have hdur : (0 : ℤ) ≤ dur := h _ (List.mem_cons_self _ _)
    obtain ⟨rows2, hrows2, hlen2⟩ := ih (j + 1) (fun q hq => h q (List.mem_cons_of_mem _ hq))
    have h0d : randint 0 dur (tD j) = Except.ok (randintVal 0 dur (tD j)) := by
      rw [randint, if_neg (by omega)]
    have h90 : randint 1 90 (offD j) = Except.ok (randintVal 1 90 (offD j)) := by
      rw [randint, if_neg (by norm_num)]
    by_cases hcl : randintVal 0 dur (tD j) = dur ∧ st ≠ Status.cancelada
    · refine ⟨ProgRow.mk mId aulaId
          (decide (randintVal 0 dur (tD j) = dur ∧ st ≠ Status.cancelada))
          (some (dataM + randintVal 1 90 (offD j)))
          (randintVal 0 dur (tD j)) :: rows2, ?_, ?_⟩
      · rw [mkProgRows, h0d]
        simp only [exceptBind_ok, decide_eq_true_eq, if_pos hcl, h90, hrows2]
      · simp [hlen2]
    · refine ⟨ProgRow.mk mId aulaId
          (decide (randintVal 0 dur (tD j) = dur ∧ st ≠ Status.cancelada))
          none
          (randintVal 0 dur (tD j)) :: rows2, ?_, ?_⟩
      · rw [mkProgRows, h0d]
        simp only [exceptBind_ok, decide_eq_true_eq, if_neg hcl, hrows2]
      · simp [hlen2]

theorem progressoFor_ok_spec (info : ℤ → ℤ × ℤ × Status) (apc : ℤ → List (ℤ × ℤ))
    (m : ℤ) (pd : ProgDraws) (rows : List ProgRow)
    (h : progressoFor info apc m pd = Except.ok rows) :
    ∀ r ∈ rows, r.matricula = m ∧ ∃ dur, (r.aula, dur) ∈ apc (info m).1 ∧
      0 ≤ r.tempo ∧ r.tempo ≤ dur ∧
      (r.concluida = true ↔ (r.tempo = dur ∧ (info m).2.2 ≠ Status.cancelada)) ∧
      (r.dataConclusao ≠ none ↔ r.concluida = true) := by
  simp only [progressoFor] at h
  by_cases he : (apc (info m).1).isEmpty = true
  · rw [if_pos he] at h
    cases h
    exact fun r hr => absurd hr (List.not_mem_nil r)
  · rw [if_neg he] at h
    rcases exceptBind_eq_ok h with ⟨k, hk, h⟩
    rcases exceptBind_eq_ok h with ⟨spl, hspl, h⟩
    obtain ⟨hsplen, hsub⟩ := sample_ok_spec hspl
    obtain ⟨_, hall⟩ :=
      mkProgRows_ok_spec m (info m).2.1 (info m).2.2 pd.tD pd.offD spl 0 rows h
    intro r hr
    obtain ⟨hm, dur, hmem, h1, h2, h3, h4, _⟩ := hall r hr
    exact ⟨hm, dur, hsub _ hmem, h1, h2, h3, h4⟩

theorem progressoFor_empty (info : ℤ → ℤ × ℤ × Status) (apc : ℤ → List (ℤ × ℤ))
    (m : ℤ) (pd : ProgDraws) (he : apc (info m).1 = []) :
    progressoFor info apc m pd = Except.ok [] := by
  simp [progressoFor, he]

theorem progressoFor_error_small (info : ℤ → ℤ × ℤ × Status) (apc : ℤ → List (ℤ × ℤ))
    (m : ℤ) (pd : ProgDraws)
    (h12 : (apc (info m).1).length = 1 ∨ (apc (info m).1).length = 2) :
    ∃ e, progressoFor info apc m pd = Except.error e := by
  have hnil : apc (info m).1 ≠ [] := by
    intro hn
    rw [hn] at h12
    simp at h12
  have hne : ¬ ((apc (info m).1).isEmpty = true) := by
    simpa [List.isEmpty_iff] using hnil
  have hlt : min 10 (((apc (info m).1).length : ℕ) : ℤ) < 3 := by
    rcases h12 with h | h <;> rw [h] <;> norm_num
  refine ⟨"empty range for randrange", ?_⟩
  simp only [progressoFor]
  rw [if_neg hne, randint_error_of_lt _ _ _ hlt, exceptBind_error]

theorem progressoFor_ok_count (info : ℤ → ℤ × ℤ × Status) (apc : ℤ → List (ℤ × ℤ))
    (m : ℤ) (pd : ProgDraws)
    (h3 : 3 ≤ (apc (info m).1).length)
    (hd : ∀ p ∈ apc (info m).1, 0 ≤ p.2) :
    ∃ k rows, progressoFor info apc m pd = Except.ok rows ∧
      3 ≤ k ∧ k ≤ min 10 (((apc (info m).1).length : ℕ) : ℤ) ∧
      rows.length = k.toNat := by
  have hne : ¬ ((apc (info m).1).isEmpty = true) := by
    rw [List.isEmpty_iff]
    intro hn
    rw [hn] at h3
    simp at h3
  have hk : randint 3 (min 10 (((apc (info m).1).length : ℕ) : ℤ)) pd.kD =
      Except.ok (randintVal 3 (min 10 (((apc (info m).1).length : ℕ) : ℤ)) pd.kD) := by
    rw [randint, if_neg (by omega)]
  obtain ⟨hk3, hkmin⟩ :=
    randintVal_bounds 3 (min 10 (((apc (info m).1).length : ℕ) : ℤ)) pd.kD (by omega)
  have hkle : (randintVal 3 (min 10 (((apc (info m).1).length : ℕ) : ℤ)) pd.kD).toNat ≤
      (apc (info m).1).length := by omega
  obtain ⟨rows, hrows, hlen⟩ :=
    mkProgRows_ok_of_nonneg m (info m).2.1 (info m).2.2 pd.tD pd.offD
      (samplePick pd.sampleD 0
        (randintVal 3 (min 10 (((apc (info m).1).length : ℕ) : ℤ)) pd.kD).toNat
        (apc (info m).1)) 0
      (fun p hp => hd p (samplePick_mem _ _ _ _ p hp))
  refine ⟨randintVal 3 (min 10 (((apc (info m).1).length : ℕ) : ℤ)) pd.kD, rows, ?_,
    hk3, hkmin, ?_⟩
  · simp only [progressoFor]
    rw [if_neg hne, hk, exceptBind_ok, sample_ok_of_le _ hkle, exceptBind_ok]
    exact hrows
  · rw [hlen, samplePick_length _ _ _ _ hkle]

theorem criarProgressoLoop_mem (info : ℤ → ℤ × ℤ × Status) (apc : ℤ → List (ℤ × ℤ))
    (pds : ℕ → ProgDraws) :
    ∀ matIds i rows, criarProgressoLoop info apc pds matIds i = Except.ok rows →
      ∀ r ∈ rows, ∃ m ∈ matIds, ∃ pd rs,
        progressoFor info apc m pd = Except.ok rs ∧ r ∈ rs := by
  intro matIds
  induction matIds with
  | nil =>
    intro i rows h r hr
    cases h
    exact absurd hr (List.not_mem_nil r)
  | cons m rest ih =>
    intro i rows h r hr
    rw [criarProgressoLoop] at h
    rcases exceptBind_eq_ok h with ⟨rs, hrs, h⟩
    rcases exceptBind_eq_ok h with ⟨rest2, hrest2, h⟩
    cases h
    rcases List.mem_append.mp hr with h1 | h1
    · exact ⟨m, List.mem_cons_self _ _, pds i, rs, hrs, h1⟩
    · obtain ⟨m2, hm2, pd, rs2, hok, hmem⟩ := ih (i + 1) rest2 hrest2 r h1
      exact ⟨m2, List.mem_cons_of_mem _ hm2, pd, rs2, hok, hmem⟩

/-! Structural lemmas about criar_avaliacoes. -/

theorem criarAvaliacoesLoop_mem (hoje : ℤ) (notaD offD : ℕ → ℤ) :
    ∀ rows i existing, ∀ a ∈ criarAvaliacoesLoop hoje notaD offD rows i existing,
      ∃ row ∈ rows, a.matricula = row.id ∧
        ∃ off, 0 ≤ off ∧ off ≤ 60 ∧
          a.dataAvaliacao = row.dataConclusao.getD hoje + off := by
  intro rows
  induction rows with
  | nil =>
    intro i existing a ha
    simp [criarAvaliacoesLoop] at ha
  | cons row rest ih =>
    intro i existing a ha
    simp only [criarAvaliacoesLoop] at ha
    by_cases hmem : row.id ∈ existing
    · rw [if_pos hmem] at ha
      obtain ⟨row2, hrow2, rest2⟩ := ih (i + 1) existing a ha
      exact ⟨row2, List.mem_cons_of_mem _ hrow2, rest2⟩
    · rw [if_neg hmem] at ha
      rcases List.mem_cons.mp ha with h1 | h1
      · subst h1
        exact ⟨row, List.mem_cons_self _ _, rfl, randintVal 0 60 (offD i),
          (randintVal_bounds 0 60 (offD i) (by norm_num)).1,
          (randintVal_bounds 0 60 (offD i) (by norm_num)).2, rfl⟩
      · obtain ⟨row2, hrow2, rest2⟩ := ih (i + 1) (row.id :: existing) a h1
        exact ⟨row2, List.mem_cons_of_mem _ hrow2, rest2⟩

theorem criarAvaliacoesLoop_ids (hoje : ℤ) (notaD offD : ℕ → ℤ) :
    ∀ rows i existing, (rows.map MatRow.id).Nodup →
      (criarAvaliacoesLoop hoje notaD offD rows i existing).map Avaliacao.matricula =
        (rows.map MatRow.id).filter fun x => decide (x ∉ existing) := by
  intro rows
  induction rows with
  | nil =>
    intro i existing _
    rfl
  | cons row rest ih =>
    intro i existing hnd
    rw [List.map_cons] at hnd
    obtain ⟨hnotin, hnd2⟩ := List.nodup_cons.mp hnd
    rw [List.map_cons, List.filter_cons]
    simp only [criarAvaliacoesLoop]
    by_cases hmem : row.id ∈ existing
    · rw [if_pos hmem, ih (i + 1) existing hnd2]
      have hdec : decide (row.id ∉ existing) = false := by simp [hmem]
      rw [hdec]
      simp
    · rw [if_neg hmem, List.map_cons, ih (i + 1) (row.id :: existing) hnd2]
      have hdec : decide (row.id ∉ existing) = true := by simp [hmem]
      rw [hdec]
      simp only [if_pos rfl]
      congr 1
      apply List.filter_congr
      intro x hx
      have hxne : x ≠ row.id := fun he => hnotin (he ▸ hx)
      apply decide_eq_decide.mpr
      simp [List.mem_cons, hxne]

/-! Structural lemmas about the popular orchestrator. -/

theorem finishRun_error {σ ε : Type} (c : Conn σ) (e : ε) :
    finishRun c (Except.error e) =
      (Except.error e, { c with pending := c.committed }, [Evento.rollback]) := rfl

theorem finishRun_ok {σ ε : Type} (c : Conn σ) (s : σ) (evs : List Evento) :
    (finishRun c (Except.ok (s, evs)) : Except ε σ × Conn σ × List Evento) =
      (Except.ok s, { committed := s, pending := s }, evs ++ [Evento.commit]) := rfl

theorem preRun_ok {σ ε : Type} {resetFlag : Bool} {resetOp : σ → Except ε σ} {s : σ}
    {r : σ × List Evento} (h : preRun resetFlag resetOp s = Except.ok r) :
    r.2 = if resetFlag then [Evento.reset] else [] := by
  cases resetFlag with
  | false =>
    have h2 : Except.ok (s, ([] : List Evento)) = Except.ok r := h
    rw [Except.ok.injEq] at h2
    rw [← h2]
    rfl
  | true =>
    have h2 : Except.bind (resetOp s)
        (fun s2 => Except.ok (s2, [Evento.reset])) = Except.ok r := h
    rcases exceptBind_eq_ok h2 with ⟨s2, _, h3⟩
    rw [Except.ok.injEq] at h3
    rw [← h3]
    rfl

theorem runStages_ok_events {σ ε : Type} :
    ∀ (stages : List (σ → Except ε σ)) (n : ℕ) (s s2 : σ) (evs : List Evento),
      runStages stages n s = Except.ok (s2, evs) →
      evs = (List.range stages.length).map fun k => Evento.stage (n + k) := by
  intro stages
  induction stages with
  | nil =>
    intro n s s2 evs h
    cases h
    rfl
  | cons f fs ih =>
    intro n s s2 evs h
    rw [runStages] at h
    rcases exceptBind_eq_ok h with ⟨s3, hs3, h⟩
    rcases exceptBind_eq_ok h with ⟨r, hr, h⟩
    rw [Except.ok.injEq, Prod.mk.injEq] at h
    obtain ⟨h1, h2⟩ := h
    subst h2
    have hrec := ih (n + 1) s3 r.1 r.2 hr
    rw [hrec, List.length_cons, List.range_succ_eq_map, List.map_cons, List.map_map]
    congr 1
    apply List.map_congr_left
    intro k hk
    show Evento.stage (n + 1 + k) = Evento.stage (n + (k + 1))
    congr 1
    omega

/-! Claim theorems. -/

/-- C2: every call of criar_matriculas with nonempty student and course pools
returns normally; the created enrollments have pairwise distinct (student,
course) pairs, at most qtd enrollments are created, and at most qtd * 6 draws
of the random stream are consulted (draws beyond the attempt budget cannot
change the result); exhausting the budget with fewer than qtd rows is not an
error, the smaller list is returned through the same normal path. -/
theorem criarMatriculas_unique_bounded (precos : ℤ → ℚ) (hoje : ℤ)
    (alunos cursos : List ℤ) (qtd : ℕ) (draws : ℕ → MatDraw)
    (ha : alunos ≠ []) (hc : cursos ≠ []) :
    ∃ ms, criarMatriculas precos hoje alunos cursos qtd draws = Except.ok ms ∧
      (ms.map fun m => (m.aluno, m.curso)).Nodup ∧
      ms.length ≤ qtd ∧
      ∀ draws2 : ℕ → MatDraw, (∀ j, j < qtd * 6 → draws2 j = draws j) →
        criarMatriculas precos hoje alunos cursos qtd draws2 =
          criarMatriculas precos hoje alunos cursos qtd draws := by
  obtain ⟨ms, h1, h2, h3⟩ :=
    criarMatriculasLoop_ok_spec precos hoje alunos cursos draws qtd ha hc
      (qtd * 6) 0 [] [] (by simp) (by simp) (by simp)
  refine ⟨ms, h1, h2, h3, fun draws2 hagree => ?_⟩
  exact criarMatriculasLoop_congr precos hoje alunos cursos qtd draws draws2
    (qtd * 6) 0 [] [] (fun j hj1 hj2 => hagree j (by omega))

/-- Witness for C2 at a concrete input: a single (student, course) pair with
target 3 exhausts the 18-attempt budget and returns one enrollment normally
(the soft cap under a small pool). -/
theorem criarMatriculas_unique_bounded_witness :
    (∃ ms, criarMatriculas cexPrecos 0 [1] [2] 3 drawsZero = Except.ok ms ∧
      (ms.map fun m => (m.aluno, m.curso)).Nodup ∧
      ms.length ≤ 3 ∧
      ∀ draws2 : ℕ → MatDraw, (∀ j, j < 3 * 6 → draws2 j = drawsZero j) →
        criarMatriculas cexPrecos 0 [1] [2] 3 draws2 =
          criarMatriculas cexPrecos 0 [1] [2] 3 drawsZero) ∧
    criarMatriculas cexPrecos 0 [1] [2] 3 drawsZero =
      Except.ok [mkMatricula cexPrecos 0 1 2 (drawsZero 0)] :=
  ⟨criarMatriculas_unique_bounded cexPrecos 0 [1] [2] 3 drawsZero
    (by decide) (by decide), by rfl⟩

/-- C3: every enrollment created by criar_matriculas is built by mkMatricula
from some draw; its status follows the cumulative thresholds 0.45 / 0.80 on
the uniform draw r (below 0.45 concluida, below 0.80 ativa, otherwise
cancelada); the completion date is present iff the status is concluida, and
when present it equals the enrollment date plus an offset in [7, 120], hence
is strictly after the enrollment date. -/
theorem criarMatriculas_status_thresholds (precos : ℤ → ℚ) (hoje : ℤ)
    (alunos cursos : List ℤ) (qtd : ℕ) (draws : ℕ → MatDraw) (ms : List Matricula)
    (h : criarMatriculas precos hoje alunos cursos qtd draws = Except.ok ms) :
    ∀ m ∈ ms, ∃ a c d, m = mkMatricula precos hoje a c d ∧
      ((d.r < 45/100 → m.status = Status.concluida) ∧
       (¬ d.r < 45/100 → d.r < 80/100 → m.status = Status.ativa) ∧
       (¬ d.r < 80/100 → m.status = Status.cancelada)) ∧
      (m.status = Status.concluida ↔ m.dataConclusao ≠ none) ∧
      (∀ x, m.dataConclusao = some x →
        ∃ off, 7 ≤ off ∧ off ≤ 120 ∧ x = m.dataMatricula + off ∧
          m.dataMatricula < x) := by
  intro m hm
  rcases criarMatriculasLoop_mem precos hoje alunos cursos draws qtd
      (qtd * 6) 0 [] [] ms h m hm with hnil | ⟨j, a, c, heq⟩
  · exact absurd hnil (List.not_mem_nil m)
  subst heq
  have hst := mkMatricula_status_eq precos hoje a c (draws j)
  have hdc := mkMatricula_dataConclusao_eq precos hoje a c (draws j)
  refine ⟨a, c, draws j, rfl, ⟨?_, ?_, ?_⟩, ?_, ?_⟩
  · intro hlt
    rw [hst, if_pos hlt]
  · intro hn1 hlt2
    rw [hst, if_neg hn1, if_pos hlt2]
  · intro hn2
    rw [hst, if_neg (fun hlt => hn2 (hlt.trans (by norm_num))), if_neg hn2]
  · by_cases hr1 : (draws j).r < 45/100
    · rw [hst, if_pos hr1, hdc, if_pos hr1]
      simp
    · rw [hst, if_neg hr1, hdc, if_neg hr1]
      split_ifs <;> simp
  · intro x hx
    rw [hdc] at hx
    by_cases hr1 : (draws j).r < 45/100
    · rw [if_pos hr1] at hx
      obtain ⟨h7, h120⟩ := randintVal_bounds 7 120 (draws j).conclOffset (by norm_num)
      refine ⟨randintVal 7 120 (draws j).conclOffset, h7, h120, ?_, ?_⟩
      · exact (Option.some.injEq _ _ ▸ hx).symm
      · have hxeq : x = (mkMatricula precos hoje a c (draws j)).dataMatricula +
            randintVal 7 120 (draws j).conclOffset := (Option.some.injEq _ _ ▸ hx).symm
        omega
    · rw [if_neg hr1] at hx
      exact Option.noConfusion hx

/-- Witness for C3 at a concrete input: a run whose single enrollment has
r = 0.3 (status concluida, completion date present and after enrollment). -/
theorem criarMatriculas_status_thresholds_witness :
    ∃ a c d, mkMatricula cexPrecos 0 1 2 (drawsConcl 0) = mkMatricula cexPrecos 0 a c d ∧
      ((d.r < 45/100 →
        (mkMatricula cexPrecos 0 1 2 (drawsConcl 0)).status = Status.concluida) ∧
       (¬ d.r < 45/100 → d.r < 80/100 →
        (mkMatricula cexPrecos 0 1 2 (drawsConcl 0)).status = Status.ativa) ∧
       (¬ d.r < 80/100 →
        (mkMatricula cexPrecos 0 1 2 (drawsConcl 0)).status = Status.cancelada)) ∧
      ((mkMatricula cexPrecos 0 1 2 (drawsConcl 0)).status = Status.concluida ↔
        (mkMatricula cexPrecos 0 1 2 (drawsConcl 0)).dataConclusao ≠ none) ∧
      (∀ x, (mkMatricula cexPrecos 0 1 2 (drawsConcl 0)).dataConclusao = some x →
        ∃ off, 7 ≤ off ∧ off ≤ 120 ∧
          x = (mkMatricula cexPrecos 0 1 2 (drawsConcl 0)).dataMatricula + off ∧
          (mkMatricula cexPrecos 0 1 2 (drawsConcl 0)).dataMatricula < x) :=
  criarMatriculas_status_thresholds cexPrecos 0 [1] [2] 1 drawsConcl
    [mkMatricula cexPrecos 0 1 2 (drawsConcl 0)] (by rfl)
    (mkMatricula cexPrecos 0 1 2 (drawsConcl 0)) (List.mem_singleton.mpr rfl)

/-- C4 as stated is false on the code: with stored course price 49.93 and raw
discount draw 0.199 (which quantizes to the discount 0.20), the inserted
enrollment's paid amount 39.94 is strictly below 0.80 * 49.93 = 39.944, so
the paid amount does not lie in [0.80 * price, price]. -/
theorem criarMatriculas_valorPago_cex :
    criarMatriculas cexPrecos 0 [1] [2] 1 cexDraws =
      Except.ok [mkMatricula cexPrecos 0 1 2 (cexDraws 0)] ∧
    (mkMatricula cexPrecos 0 1 2 (cexDraws 0)).valorPago <
      (80/100) * cexPrecos (mkMatricula cexPrecos 0 1 2 (cexDraws 0)).curso := by
  constructor
  · rfl
  · rw [mkMatricula_valorPago, mkMatricula_curso]
    norm_num [cexPrecos, cexDraws, quantize2, roundHalfEven]

/-- C4 amended: the per-enrollment discount is the raw uniform(0, 0.2) draw
quantized to two decimals, so it lies in the closed interval [0, 0.20]
(0.20 included); the paid amount equals price * (1 - discount) quantized to
two decimals with round-half-even, and consequently lies within
[0.80 * price - 0.005, price]. -/
theorem criarMatriculas_valorPago_bounds (precos : ℤ → ℚ) (hoje : ℤ)
    (alunos cursos : List ℤ) (qtd : ℕ) (draws : ℕ → MatDraw) (ms : List Matricula)
    (hprec : ∀ c, ∃ p : ℤ, precos c = (p : ℚ) / 100)
    (hprecpos : ∀ c, 0 ≤ precos c)
    (hdesc : ∀ i, 0 ≤ (draws i).desconto ∧ (draws i).desconto ≤ 1/5)
    (h : criarMatriculas precos hoje alunos cursos qtd draws = Except.ok ms) :
    ∀ m ∈ ms,
      (∃ u, 0 ≤ u ∧ u ≤ 1/5 ∧ 0 ≤ quantize2 u ∧ quantize2 u ≤ 1/5 ∧
        m.valorPago = quantize2 (precos m.curso * (1 - quantize2 u))) ∧
      (80/100) * precos m.curso - 1/200 ≤ m.valorPago ∧
      m.valorPago ≤ precos m.curso := by
  intro m hm
  rcases criarMatriculasLoop_mem precos hoje alunos cursos draws qtd
      (qtd * 6) 0 [] [] ms h m hm with hnil | ⟨j, a, c, heq⟩
  · exact absurd hnil (List.not_mem_nil m)
  subst heq
  rw [mkMatricula_valorPago, mkMatricula_curso]
  obtain ⟨hd0, hd1⟩ := hdesc j
  obtain ⟨hq0, hq1⟩ := quantize2_desconto hd0 hd1
  obtain ⟨p, hp⟩ := hprec c
  obtain ⟨hl, hu⟩ := quantize2_valor_bounds hp (hprecpos c) hq0 hq1
  exact ⟨⟨(draws j).desconto, hd0, hd1, hq0, hq1, rfl⟩, hl, hu⟩

/-- Witness for the amended C4 at a concrete input (price 49.93, raw discount
draw 0). -/
theorem criarMatriculas_valorPago_bounds_witness :
    (∃ u, 0 ≤ u ∧ u ≤ 1/5 ∧ 0 ≤ quantize2 u ∧ quantize2 u ≤ 1/5 ∧
      (mkMatricula cexPrecos 0 1 2 (drawsZero 0)).valorPago =
        quantize2 (cexPrecos (mkMatricula cexPrecos 0 1 2 (drawsZero 0)).curso *
          (1 - quantize2 u))) ∧
    (80/100) * cexPrecos (mkMatricula cexPrecos 0 1 2 (drawsZero 0)).curso - 1/200 ≤
      (mkMatricula cexPrecos 0 1 2 (drawsZero 0)).valorPago ∧
    (mkMatricula cexPrecos 0 1 2 (drawsZero 0)).valorPago ≤
      cexPrecos (mkMatricula cexPrecos 0 1 2 (drawsZero 0)).curso :=
  criarMatriculas_valorPago_bounds cexPrecos 0 [1] [2] 1 drawsZero
    [mkMatricula cexPrecos 0 1 2 (drawsZero 0)]
    (fun _ => ⟨4993, rfl⟩)
    (fun _ => by norm_num [cexPrecos])
    (fun _ => by constructor <;> norm_num [drawsZero])
    (by rfl)
    (mkMatricula cexPrecos 0 1 2 (drawsZero 0)) (List.mem_singleton.mpr rfl)

/-- C6: for every course processed by criar_modulos_e_aulas, under any
module/lesson count bounds, the module order numbers of the course form the
contiguous sequence 1..count, and within each module the lesson order numbers
form the contiguous sequence 1..count. -/
theorem criarModulosEAulas_ordem_contigua (minMod maxMod minAula maxAula : ℤ)
    (cds : ℕ → CursoDraws) (cursoIds : List ℤ) (res : List (ℤ × List Modulo))
    (h : criarModulosEAulas minMod maxMod minAula maxAula cds cursoIds 0 = Except.ok res) :
    ∀ e ∈ res,
      (e.2.map Modulo.ordem = (List.range e.2.length).map fun j => Int.ofNat j + 1) ∧
      ∀ md ∈ e.2, md.aulas.map Aula.ordem =
        (List.range md.aulas.length).map fun j => Int.ofNat j + 1 := by
  intro e he
  obtain ⟨j, hj⟩ :=
    criarModulosEAulas_mem minMod maxMod minAula maxAula cds cursoIds 0 res h e he
  obtain ⟨hord, haulas⟩ :=
    criarModulosCurso_spec minMod maxMod minAula maxAula (cds j) e.2 hj
  refine ⟨hord, fun md hmd => ?_⟩
  obtain ⟨qa, dD, tD, heq⟩ := haulas md hmd
  rw [heq, mkAulas_ordem, mkAulas_length]

/-- Witness for C6 at a concrete input: one course with degenerate bounds of
exactly one module and one lesson and the all-zero draw stream. -/
theorem criarModulosEAulas_ordem_contigua_witness :
    (((42 : ℤ), [Modulo.mk 1 [Aula.mk 1 41 AulaTipo.video]]).2.map Modulo.ordem =
      (List.range ((42 : ℤ), [Modulo.mk 1 [Aula.mk 1 41 AulaTipo.video]]).2.length).map
        fun j => Int.ofNat j + 1) ∧
    ∀ md ∈ ((42 : ℤ), [Modulo.mk 1 [Aula.mk 1 41 AulaTipo.video]]).2,
      md.aulas.map Aula.ordem =
        (List.range md.aulas.length).map fun j => Int.ofNat j + 1 :=
  criarModulosEAulas_ordem_contigua 1 1 1 1 cdsZero [42]
    [((42 : ℤ), [Modulo.mk 1 [Aula.mk 1 41 AulaTipo.video]])] (by rfl)
    ((42 : ℤ), [Modulo.mk 1 [Aula.mk 1 41 AulaTipo.video]]) (List.mem_singleton.mpr rfl)

/-- C5: every lesson-progress row created by criar_progresso has watched
minutes inside [0, duration] for the duration paired with the referenced
lesson, its completed flag is true iff the watched minutes equal that
duration and the owning enrollment's status is not cancelada, and its
completion date is present iff the completed flag is true. -/
theorem criarProgresso_row_invariants (info : ℤ → ℤ × ℤ × Status)
    (apc : ℤ → List (ℤ × ℤ)) (matIds : List ℤ) (pds : ℕ → ProgDraws)
    (rows : List ProgRow)
    (h : criarProgresso info apc matIds pds = Except.ok rows) :
    ∀ r ∈ rows, (∃ m ∈ matIds, r.matricula = m) ∧
      ∃ dur, (r.aula, dur) ∈ apc (info r.matricula).1 ∧
        0 ≤ r.tempo ∧ r.tempo ≤ dur ∧
        (r.concluida = true ↔
          (r.tempo = dur ∧ (info r.matricula).2.2 ≠ Status.cancelada)) ∧
        (r.dataConclusao ≠ none ↔ r.concluida = true) := by
  intro r hr
  obtain ⟨m, hm, pd, rs, hok, hmem⟩ :=
    criarProgressoLoop_mem info apc pds matIds 0 rows h r hr
  obtain ⟨hrm, dur, hdur, h1, h2, h3, h4⟩ := progressoFor_ok_spec info apc m pd rs hok r hmem
  subst hrm
  exact ⟨⟨r.matricula, hm, rfl⟩, dur, hdur, h1, h2, h3, h4⟩

/-- Witness for C5 at a concrete input: the first progress row of one
enrollment of a course with three lessons and the all-zero draw stream. -/
theorem criarProgresso_row_invariants_witness :
    (∃ m ∈ [(5 : ℤ)], (ProgRow.mk 5 1 false none 0).matricula = m) ∧
    ∃ dur, ((ProgRow.mk 5 1 false none 0).aula, dur) ∈
        apcTres (infoUm (ProgRow.mk 5 1 false none 0).matricula).1 ∧
      0 ≤ (ProgRow.mk 5 1 false none 0).tempo ∧
      (ProgRow.mk 5 1 false none 0).tempo ≤ dur ∧
      ((ProgRow.mk 5 1 false none 0).concluida = true ↔
        ((ProgRow.mk 5 1 false none 0).tempo = dur ∧
          (infoUm (ProgRow.mk 5 1 false none 0).matricula).2.2 ≠ Status.cancelada)) ∧
      ((ProgRow.mk 5 1 false none 0).dataConclusao ≠ none ↔
        (ProgRow.mk 5 1 false none 0).concluida = true) :=
  criarProgresso_row_invariants infoUm apcTres [5] pdsZero
    ((criarProgresso infoUm apcTres [5] pdsZero).toOption.getD []) (by rfl)
    (ProgRow.mk 5 1 false none 0) (by decide)

/-- C8 as stated is false on the code: for an enrollment whose course has
exactly one lesson (at least one, as the claim requires), criar_progresso
raises ValueError from randint(3, min(10, 1)) instead of creating rows
without exception. -/
theorem criarProgresso_poucas_aulas_cex :
    (apcUma (infoUm 5).1).length = 1 ∧
    criarProgresso infoUm apcUma [5] pdsZero =
      Except.error "empty range for randrange" :=
  ⟨rfl, rfl⟩

/-- C8 amended: per enrollment, a course with no lessons yields zero rows and
no exception; a course with one or two lessons makes randint(3, min(10,
available)) raise ValueError (empty range); a course with at least three
lessons (all with nonnegative durations) yields k sampled lessons without
replacement, k in [3, min(10, available)], with exactly one row per sampled
lesson and no exception. -/
theorem criarProgresso_trichotomy (info : ℤ → ℤ × ℤ × Status)
    (apc : ℤ → List (ℤ × ℤ)) (m : ℤ) (pds : ℕ → ProgDraws) :
    (apc (info m).1 = [] → criarProgresso info apc [m] pds = Except.ok []) ∧
    ((apc (info m).1).length = 1 ∨ (apc (info m).1).length = 2 →
      ∃ e, criarProgresso info apc [m] pds = Except.error e) ∧
    (3 ≤ (apc (info m).1).length → (∀ p ∈ apc (info m).1, 0 ≤ p.2) →
      ∃ k rows, criarProgresso info apc [m] pds = Except.ok rows ∧
        3 ≤ k ∧ k ≤ min 10 (((apc (info m).1).length : ℕ) : ℤ) ∧
        rows.length = k.toNat) := by
  refine ⟨?_, ?_, ?_⟩
  · intro he
    unfold criarProgresso
    rw [criarProgressoLoop, progressoFor_empty info apc m (pds 0) he, exceptBind_ok,
      criarProgressoLoop, exceptBind_ok]
    rfl
  · intro h12
    obtain ⟨e, he⟩ := progressoFor_error_small info apc m (pds 0) h12
    refine ⟨e, ?_⟩
    unfold criarProgresso
    rw [criarProgressoLoop, he, exceptBind_error]
  · intro h3 hd
    obtain ⟨k, rows, hok, hk3, hkm, hlen⟩ := progressoFor_ok_count info apc m (pds 0) h3 hd
    refine ⟨k, rows, ?_, hk3, hkm, hlen⟩
    unfold criarProgresso
    rw [criarProgressoLoop, hok, exceptBind_ok, criarProgressoLoop, exceptBind_ok,
      Except.ok.injEq]
    exact List.append_nil rows

/-- Witness for the amended C8 at concrete inputs: a course with zero lessons
(zero rows, no exception), a course with one lesson (ValueError) and a course
with three lessons (three sampled rows). -/
theorem criarProgresso_trichotomy_witness :
    criarProgresso infoUm apcVazia [5] pdsZero = Except.ok [] ∧
    (∃ e, criarProgresso infoUm apcUma [5] pdsZero = Except.error e) ∧
    (∃ k rows, criarProgresso infoUm apcTres [5] pdsZero = Except.ok rows ∧
      3 ≤ k ∧ k ≤ min 10 (((apcTres (infoUm 5).1).length : ℕ) : ℤ) ∧
      rows.length = k.toNat) :=
  ⟨(criarProgresso_trichotomy infoUm apcVazia 5 pdsZero).1 rfl,
   (criarProgresso_trichotomy infoUm apcUma 5 pdsZero).2.1 (Or.inl rfl),
   (criarProgresso_trichotomy infoUm apcTres 5 pdsZero).2.2 (by decide)
     (by decide)⟩

/-- C9 as stated is false on the code: with a completed enrollment whose
completion date is day 100 and the 0-day offset draw, the created evaluation
is dated day 100, which is not after the completion date. -/
theorem criarAvaliacoes_data_cex :
    rowConcluida.dataConclusao = some 100 ∧
    ∃ a ∈ (criarAvaliacoes [rowConcluida] [] 50 zeroD zeroD).1,
      a.matricula = rowConcluida.id ∧ ¬ 100 < a.dataAvaliacao := by
  constructor
  · rfl
  · decide

/-- C9 amended: every evaluation created by criar_avaliacoes belongs to a
completed enrollment of the table and is dated the enrollment's completion
date (or the current date as fallback when absent) plus an offset in [0, 60];
hence the evaluation date is on or after the completion date (equality occurs
at offset 0), not strictly after it. -/
theorem criarAvaliacoes_data_bounds (table : List MatRow) (existing : List ℤ)
    (hoje : ℤ) (notaD offD : ℕ → ℤ) :
    ∀ a ∈ (criarAvaliacoes table existing hoje notaD offD).1,
      ∃ row ∈ table, row.status = Status.concluida ∧ a.matricula = row.id ∧
        ∃ off, 0 ≤ off ∧ off ≤ 60 ∧
          a.dataAvaliacao = row.dataConclusao.getD hoje + off ∧
          ∀ cdt, row.dataConclusao = some cdt → cdt ≤ a.dataAvaliacao := by
  intro a ha
  obtain ⟨row, hrow, hmat, off, h0, h60, heq⟩ :=
    criarAvaliacoesLoop_mem hoje notaD offD _ 0 existing a ha
  have hrow2 := List.mem_filter.mp hrow
  refine ⟨row, hrow2.1, by simpa using hrow2.2, hmat, off, h0, h60, heq, ?_⟩
  intro cdt hcdt
  rw [heq, hcdt]
  simp only [Option.getD_some]
  omega

/-- Witness for the amended C9 at a concrete input: the evaluation created
for one completed enrollment with completion date 100 and zero draws. -/
theorem criarAvaliacoes_data_bounds_witness :
    ∃ row ∈ [rowConcluida], row.status = Status.concluida ∧
      (Avaliacao.mk 1 2 5 100).matricula = row.id ∧
      ∃ off, 0 ≤ off ∧ off ≤ 60 ∧
        (Avaliacao.mk 1 2 5 100).dataAvaliacao = row.dataConclusao.getD 50 + off ∧
        ∀ cdt, row.dataConclusao = some cdt →
          cdt ≤ (Avaliacao.mk 1 2 5 100).dataAvaliacao :=
  criarAvaliacoes_data_bounds [rowConcluida] [] 50 zeroD zeroD
    (Avaliacao.mk 1 2 5 100) (by decide)

/-- C10: criar_avaliacoes attempts one insert for every enrollment with
status concluida present in the matriculas table at call time, whichever run
created it, and the insert goes through exactly when the enrollment does not
already have an evaluation: the inserted matricula ids are exactly the ids of
the completed table rows outside the existing-evaluation set, in table
order. -/
theorem criarAvaliacoes_seleciona_todas (table : List MatRow) (existing : List ℤ)
    (hoje : ℤ) (notaD offD : ℕ → ℤ) (hn : (table.map MatRow.id).Nodup) :
    (criarAvaliacoes table existing hoje notaD offD).1.map Avaliacao.matricula =
      ((table.filter fun r => decide (r.status = Status.concluida)).map MatRow.id).filter
        fun x => decide (x ∉ existing) := by
  have hnd : ((table.filter fun r =>
      decide (r.status = Status.concluida)).map MatRow.id).Nodup :=
    hn.sublist ((List.filter_sublist table).map MatRow.id)
  exact criarAvaliacoesLoop_ids hoje notaD offD _ 0 existing hnd

/-- Witness for C10 at a concrete input: a table holding a completed row that
already has an evaluation (id 1, suppressed), a completed row persisted by an
earlier run (id 3, inserted) and an active row (id 5, never selected). -/
theorem criarAvaliacoes_seleciona_todas_witness :
    (criarAvaliacoes [rowConcluida, rowAntiga, rowAtiva] [1] 50 zeroD zeroD).1.map
        Avaliacao.matricula =
      (([rowConcluida, rowAntiga, rowAtiva].filter fun r =>
          decide (r.status = Status.concluida)).map MatRow.id).filter
        fun x => decide (x ∉ ([1] : List ℤ)) :=
  criarAvaliacoes_seleciona_todas [rowConcluida, rowAntiga, rowAtiva] [1] 50 zeroD zeroD
    (by decide)

/-- C1: popular runs the eight stages (and the optional reset) inside one
transaction; on success it commits exactly once, as the very last event,
after all eight stage events (and the reset event when requested) and with
no rollback; on any exception from any stage it rolls back (the committed
state is left exactly as before the run, no commit event occurs) and
re-raises the exception. -/
theorem popular_atomic {σ ε : Type} (resetFlag : Bool) (resetOp : σ → Except ε σ)
    (stages : List (σ → Except ε σ)) (c : Conn σ) (hlen : stages.length = 8) :
    (∀ e conn2 evs, popular resetFlag resetOp stages c = (Except.error e, conn2, evs) →
      conn2.committed = c.committed ∧ Evento.commit ∉ evs ∧ Evento.rollback ∈ evs) ∧
    (∀ s conn2 evs, popular resetFlag resetOp stages c = (Except.ok s, conn2, evs) →
      conn2.committed = s ∧ conn2.pending = s ∧
      evs.count Evento.commit = 1 ∧ evs.getLast? = some Evento.commit ∧
      (∀ n, 1 ≤ n → n ≤ 8 → Evento.stage n ∈ evs) ∧
      (resetFlag = true → Evento.reset ∈ evs) ∧
      Evento.rollback ∉ evs) := by
  unfold popular
  cases hpre : preRun resetFlag resetOp c.pending with
  | error e0 =>
    rw [exceptBind_error, finishRun_error]
    constructor
    · intro e conn2 evs h
      rw [Prod.mk.injEq, Prod.mk.injEq] at h
      obtain ⟨h1, h2, h3⟩ := h
      subst h2
      subst h3
      exact ⟨rfl, by decide, by decide⟩
    · intro s conn2 evs h
      rw [Prod.mk.injEq] at h
      exact Except.noConfusion h.1
  | ok r =>
    obtain ⟨s0, evs0⟩ := r
    have hevs0 : evs0 = if resetFlag then [Evento.reset] else [] := preRun_ok hpre
    simp only [exceptBind_ok]
    cases hrun : runStages stages 1 s0 with
    | error e1 =>
      rw [exceptBind_error, finishRun_error]
      constructor
      · intro e conn2 evs h
        rw [Prod.mk.injEq, Prod.mk.injEq] at h
        obtain ⟨h1, h2, h3⟩ := h
        subst h2
        subst h3
        exact ⟨rfl, by decide, by decide⟩
      · intro s conn2 evs h
        rw [Prod.mk.injEq] at h
        exact Except.noConfusion h.1
    | ok r2 =>
      obtain ⟨s3, evs1⟩ := r2
      have hevs1 : evs1 = (List.range stages.length).map fun k => Evento.stage (1 + k) :=
        runStages_ok_events stages 1 s0 s3 evs1 hrun
      simp only [exceptBind_ok]
      rw [finishRun_ok]
      constructor
      · intro e conn2 evs h
        rw [Prod.mk.injEq] at h
        exact Except.noConfusion h.1
      · intro s conn2 evs h
        rw [Prod.mk.injEq, Prod.mk.injEq] at h
        obtain ⟨h1, h2, h3⟩ := h
        rw [Except.ok.injEq] at h1
        subst h1
        subst h2
        subst h3
        have hnc1 : Evento.commit ∉ evs1 := by
          rw [hevs1]
          intro hmem
          obtain ⟨k, _, habs⟩ := List.mem_map.mp hmem
          exact Evento.noConfusion habs
        have hnc0 : Evento.commit ∉ evs0 := by
          rw [hevs0]
          cases resetFlag <;> decide
        have hnr1 : Evento.rollback ∉ evs1 := by
          rw [hevs1]
          intro hmem
          obtain ⟨k, _, habs⟩ := List.mem_map.mp hmem
          exact Evento.noConfusion habs
        have hnr0 : Evento.rollback ∉ evs0 := by
          rw [hevs0]
          cases resetFlag <;> decide
        refine ⟨rfl, rfl, ?_, ?_, ?_, ?_, ?_⟩
        · rw [List.count_append, List.count_append,
            List.count_eq_zero.mpr hnc0, List.count_eq_zero.mpr hnc1]
          decide
        · exact List.getLast?_concat _
        · intro n h1n h8n
          refine List.mem_append.mpr (Or.inl (List.mem_append.mpr (Or.inr ?_)))
          rw [hevs1]
          refine List.mem_map.mpr ⟨n - 1, List.mem_range.mpr (by omega), ?_⟩
          congr 1
          omega
        · intro hres
          refine List.mem_append.mpr (Or.inl (List.mem_append.mpr (Or.inl ?_)))
          rw [hevs0, if_pos hres]
          exact List.mem_cons_self _ _
        · intro hmem
          rcases List.mem_append.mp hmem with h1 | h1
          · rcases List.mem_append.mp h1 with h2 | h2
            · exact hnr0 h2
            · exact hnr1 h2
          · rcases List.mem_cons.mp h1 with h2 | h2
            · exact Evento.noConfusion h2
            · exact absurd h2 (List.not_mem_nil _)

/-- Witness for C1 at concrete inputs over the counter state: a successful
run of eight incrementing stages with reset (committed once at the end, all
stage events present), and a run whose third stage raises (rolled back, no
commit, database unchanged). -/
theorem popular_atomic_witness :
    ((Conn.mk (8 : ℕ) 8).committed = 8 ∧ (Conn.mk (8 : ℕ) 8).pending = 8 ∧
      ([Evento.reset, Evento.stage 1, Evento.stage 2, Evento.stage 3, Evento.stage 4,
        Evento.stage 5, Evento.stage 6, Evento.stage 7, Evento.stage 8,
        Evento.commit].count Evento.commit = 1) ∧
      ([Evento.reset, Evento.stage 1, Evento.stage 2, Evento.stage 3, Evento.stage 4,
        Evento.stage 5, Evento.stage 6, Evento.stage 7, Evento.stage 8,
        Evento.commit].getLast? = some Evento.commit) ∧
      (∀ n, 1 ≤ n → n ≤ 8 →
        Evento.stage n ∈ [Evento.reset, Evento.stage 1, Evento.stage 2, Evento.stage 3,
          Evento.stage 4, Evento.stage 5, Evento.stage 6, Evento.stage 7, Evento.stage 8,
          Evento.commit]) ∧
      (true = true →
        Evento.reset ∈ [Evento.reset, Evento.stage 1, Evento.stage 2, Evento.stage 3,
          Evento.stage 4, Evento.stage 5, Evento.stage 6, Evento.stage 7, Evento.stage 8,
          Evento.commit]) ∧
      Evento.rollback ∉ [Evento.reset, Evento.stage 1, Evento.stage 2, Evento.stage 3,
        Evento.stage 4, Evento.stage 5, Evento.stage 6, Evento.stage 7, Evento.stage 8,
        Evento.commit]) ∧
    ((Conn.mk (7 : ℕ) 7).committed = (Conn.mk (7 : ℕ) 7).committed ∧
      Evento.commit ∉ [Evento.rollback] ∧ Evento.rollback ∈ [Evento.rollback]) :=
  ⟨(popular_atomic true resetZero (List.replicate 8 stOk) (Conn.mk 3 3)
      (by simp)).2 8 (Conn.mk 8 8)
      [Evento.reset, Evento.stage 1, Evento.stage 2, Evento.stage 3, Evento.stage 4,
        Evento.stage 5, Evento.stage 6, Evento.stage 7, Evento.stage 8, Evento.commit]
      (by rfl),
   (popular_atomic false resetZero
      [stOk, stOk, stErr, stOk, stOk, stOk, stOk, stOk] (Conn.mk 7 7) (by rfl)).1
      "constraint violation" (Conn.mk 7 7) [Evento.rollback] (by rfl)⟩

/-- C7 as stated is false on the code: the fixed pool has only eight entries,
so for the requested count 10 criar_categorias inserts 8 categories, not
max(10, 5) = 10 (the slice cannot extend beyond the pool). -/
theorem criarCategorias_count_cex :
    baseCategorias.Perm baseCategorias ∧
    (criarCategorias 10 baseCategorias).length ≠ (max (10 : ℤ) 5).toNat :=
  ⟨List.Perm.refl _, by decide⟩

/-- C7 amended: for a shuffle of the fixed eight-entry pool,
criar_categorias inserts and returns exactly min(max(n, 5), 8) categories,
with all category names distinct; in particular n = 6 yields exactly 6
categories. -/
theorem criarCategorias_count_nodup (n : ℤ) (shuffled : List (String × String))
    (hp : shuffled.Perm baseCategorias) :
    (criarCategorias n shuffled).length = min (max n 5).toNat baseCategorias.length ∧
    ((criarCategorias n shuffled).map Prod.fst).Nodup ∧
    (n = 6 → (criarCategorias n shuffled).length = 6) := by
  have hlen : shuffled.length = baseCategorias.length := hp.length_eq
  refine ⟨?_, ?_, ?_⟩
  · unfold criarCategorias
    rw [List.length_take, hlen]
  · have hnd : (baseCategorias.map Prod.fst).Nodup := by decide
    have hnd2 : (shuffled.map Prod.fst).Nodup := (hp.map Prod.fst).nodup_iff.mpr hnd
    exact hnd2.sublist ((List.take_sublist _ _).map Prod.fst)
  · intro h6
    subst h6
    unfold criarCategorias
    rw [List.length_take, hlen]
    decide

/-- Witness for the amended C7 at a concrete input: the identity shuffle with
n = 6. -/
theorem criarCategorias_count_nodup_witness :
    (criarCategorias 6 baseCategorias).length =
      min (max (6 : ℤ) 5).toNat baseCategorias.length ∧
    ((criarCategorias 6 baseCategorias).map Prod.fst).Nodup ∧
    ((6 : ℤ) = 6 → (criarCategorias 6 baseCategorias).length = 6) :=
  criarCategorias_count_nodup 6 baseCategorias (List.Perm.refl _)

end EduTech
